import Mathlib

/-!
Verification development for the search core of the Klausfish chess engine.

The Python sources are shallowly embedded: the chess rules library
(python-chess) is abstracted as a finitely-branching game tree `Pos` whose
node data are exactly the observations the engine consumes (side to move,
game over flag, white-relative evaluation, FEN string, piece map, the set of
checking moves, and the legal moves together with their successor
positions).  The engine functions from `moves.py`, `transpositions.py`,
`time_management.py` and `searching.py` are translated definition by
definition; mutable state (the transposition table, the board's move stack,
and the cooperative stop flag, read as a time-indexed schedule) is threaded
explicitly, and Python exceptions are modelled with `Except`.
-/

namespace Klausfish

/-- Piece types of `python-chess` (`chess.PAWN` .. `chess.KING`). -/
inductive PieceType where
  | pawn
  | knight
  | bishop
  | rook
  | queen
  | king
deriving DecidableEq, Repr

/-- A chess piece: type and colour (`true` = white), as in `chess.Piece`. -/
structure Piece where
  piece_type : PieceType
  color : Bool
deriving DecidableEq, Repr

/-- `chess.Move`: origin square, destination square, optional promotion.
Squares are numbered 0..63 with `a1 = 0`, as in python-chess. -/
structure Move where
  fromSq : Nat
  toSq : Nat
  promotion : Option PieceType
deriving DecidableEq, Repr

/-- `heuristics.SIMPLE_MATERIAL_VALUES` (the values used by MVV-LVA move
ordering).  Returned as rationals because MVV-LVA divides by the king
value. -/
def SIMPLE_MATERIAL_VALUES : PieceType → ℚ
  | PieceType.pawn => 1
  | PieceType.knight => 3
  | PieceType.bishop => 3
  | PieceType.rook => 5
  | PieceType.queen => 9
  | PieceType.king => 20

/-- `moves.mvv_lva(piece, captures)`: `piece` is the aggressor, `captures`
the victim; returns `victim + (king - aggressor) / king`. -/
def mvv_lva (piece : Piece) (captures : Piece) : ℚ :=
  SIMPLE_MATERIAL_VALUES captures.piece_type +
    (SIMPLE_MATERIAL_VALUES PieceType.king -
      SIMPLE_MATERIAL_VALUES piece.piece_type) /
      SIMPLE_MATERIAL_VALUES PieceType.king

/-- The game-tree abstraction of `chess.Board`.  A node carries the side to
move, the `is_game_over()` flag, the white-relative evaluation
`SIMPLIFIED_EVAL[state]` (abstract here: no claim depends on its
internals), the FEN string, the piece map (`piece_map()`, square ↦ piece),
the set of legal moves that give check (the observations made by
`moves.is_move_check` via push / is_check / pop), and the legal moves
paired with the position reached by pushing them. -/
inductive Pos where
  | mk (turn : Bool) (gameOver : Bool) (evalWhite : ℚ) (fen : String)
      (pieceMap : List (Nat × Piece)) (checkMoves : List Move)
      (children : List (Move × Pos))

def Pos.turn : Pos → Bool
  | Pos.mk t _ _ _ _ _ _ => t

def Pos.gameOver : Pos → Bool
  | Pos.mk _ g _ _ _ _ _ => g

def Pos.evalWhite : Pos → ℚ
  | Pos.mk _ _ e _ _ _ _ => e

def Pos.fen : Pos → String
  | Pos.mk _ _ _ f _ _ _ => f

def Pos.pieceMap : Pos → List (Nat × Piece)
  | Pos.mk _ _ _ _ pm _ _ => pm

def Pos.checkMoves : Pos → List Move
  | Pos.mk _ _ _ _ _ cm _ => cm

def Pos.children : Pos → List (Move × Pos)
  | Pos.mk _ _ _ _ _ _ ch => ch

/-- `board.legal_moves` (as a list, in generation order). -/
def legal_moves (pos : Pos) : List Move :=
  pos.children.map Prod.fst

/-- First-match association lookup (Python attribute/dict style lookup). -/
def assoc_find {α β : Type} [DecidableEq α] (a : α) : List (α × β) → Option β
  | [] => none
  | (k, v) :: rest => if k = a then some v else assoc_find a rest

theorem assoc_find_mem {α β : Type} [DecidableEq α] {a : α} {b : β} :
    ∀ {l : List (α × β)}, assoc_find a l = some b → (a, b) ∈ l := by
  intro l
  induction l with
  | nil => intro h; simp [assoc_find] at h
  | cons p rest ih =>
    intro h
    obtain ⟨k, v⟩ := p
    by_cases hk : k = a
    · subst hk
      simp [assoc_find] at h
      subst h
      exact List.mem_cons_self _ _
    · simp [assoc_find, hk] at h
      exact List.mem_cons_of_mem _ (ih h)

/-- `board.piece_at(square)`. -/
def piece_at (pos : Pos) (square : Nat) : Option Piece :=
  assoc_find square pos.pieceMap

theorem sizeOf_child_lt {m : Move} {c : Pos} (pos : Pos)
    (h : (m, c) ∈ pos.children) : sizeOf c < sizeOf pos := by
  obtain ⟨t, g, e, f, pm, cm, ch⟩ := pos
  have h1 : sizeOf (m, c) < sizeOf ch := List.sizeOf_lt_of_mem h
  simp only [Pos.children] at h
  simp only [Pos.mk.sizeOf_spec]
  have h2 : sizeOf c < sizeOf (m, c) := by
    simp only [Prod.mk.sizeOf_spec]
    omega
  have h1 : sizeOf (m, c) < sizeOf ch := List.sizeOf_lt_of_mem h
  omega

/-- Successor lookup used to model `board.push(move)`, packaged with the
size bound needed for recursion over the game tree. -/
def find_child (pos : Pos) (m : Move) :
    Option {c : Pos // sizeOf c < sizeOf pos} :=
  match h : assoc_find m pos.children with
  | none => none
  | some c => some ⟨c, sizeOf_child_lt pos (assoc_find_mem h)⟩

/-! ### `moves.py`: static move ordering -/

/-- `moves.is_move_check(board, move)`: whether pushing the move leaves the
opponent in check (push / is_check / pop in the source; an observation of
the board here). -/
def is_move_check (pos : Pos) (move : Move) : Bool :=
  decide (move ∈ pos.checkMoves)

/-- Fallback aggressor for `moves.is_move_takes`: the source reads
`board.piece_at(move.from_square)` without a `None` check and would raise
`AttributeError` on an empty origin square; that cannot happen for a legal
move (the origin is occupied), and the claims only concern legal moves. -/
def piece_default : Piece :=
  Piece.mk PieceType.king true

/-- `moves.is_move_takes(board, move)`: `(False, 0)` when the destination
square is empty, else `(True, mvv_lva(aggressor, victim))`. -/
def is_move_takes (pos : Pos) (move : Move) : Bool × ℚ :=
  match piece_at pos move.toSq with
  | none => (false, 0)
  | some victim =>
    match piece_at pos move.fromSq with
    | some aggressor => (true, mvv_lva aggressor victim)
    | none => (true, mvv_lva piece_default victim)

/-- `moves.is_move_forward(board, move)`.  The source computes the row of a
square as `(square - 1) // 8` (Python floor division, hence `Int.fdiv`),
and compares rows: destination above origin for white, below for black. -/
def is_move_forward (pos : Pos) (move : Move) : Bool :=
  let to_square_row := ((move.toSq : Int) - 1).fdiv 8
  let from_square_row := ((move.fromSq : Int) - 1).fdiv 8
  if pos.turn then decide (from_square_row < to_square_row)
  else decide (to_square_row < from_square_row)

/-- `moves.prioritize_move(board, move)`: 21 for checking moves, else the
MVV-LVA value for captures, else 1 for forward moves, else 0. -/
def prioritize_move (pos : Pos) (move : Move) : ℚ :=
  if is_move_check pos move then 21
  else
    let takes := is_move_takes pos move
    if takes.1 then takes.2
    else if is_move_forward pos move then 1
    else 0

/-- Stable insertion (descending by key) modelling one step of Python's
stable `list.sort(key=…, reverse=True)`: an element is placed after all
existing elements with a greater-or-equal key. -/
def insort_desc {α : Type} (key : α → ℚ) (a : α) : List α → List α
  | [] => [a]
  | b :: rest =>
    if key a ≤ key b then b :: insort_desc key a rest
    else a :: b :: rest

/-- Stable sort, descending by key: models `list.sort(key=…, reverse=True)`.
-/
def sort_desc {α : Type} (key : α → ℚ) : List α → List α
  | [] => []
  | a :: rest => insort_desc key a (sort_desc key rest)

theorem insort_desc_perm {α : Type} (key : α → ℚ) (a : α) :
    ∀ l : List α, List.Perm (insort_desc key a l) (a :: l) := by
  intro l
  induction l with
  | nil => simp [insort_desc]
  | cons b rest ih =>
    by_cases h : key a ≤ key b
    · simp only [insort_desc, if_pos h]
      exact (ih.cons b).trans (List.Perm.swap a b rest)
    · simp [insort_desc, if_neg h]

theorem sort_desc_perm {α : Type} (key : α → ℚ) :
    ∀ l : List α, List.Perm (sort_desc key l) l := by
  intro l
  induction l with
  | nil => simp [sort_desc]
  | cons a rest ih =>
    exact (insort_desc_perm key a (sort_desc key rest)).trans (ih.cons a)

theorem insort_desc_pairwise {α : Type} (key : α → ℚ) (a : α) {l : List α}
    (h : l.Pairwise (fun x y => key y ≤ key x)) :
    (insort_desc key a l).Pairwise (fun x y => key y ≤ key x) := by
  induction l with
  | nil => simp [insort_desc]
  | cons b rest ih =>
    rw [List.pairwise_cons] at h
    obtain ⟨hb, hrest⟩ := h
    by_cases hk : key a ≤ key b
    · simp only [insort_desc, if_pos hk]
      rw [List.pairwise_cons]
      refine ⟨?_, ih hrest⟩
      intro x hx
      have hx2 : x ∈ a :: rest := (insort_desc_perm key a rest).mem_iff.mp hx
      rcases List.mem_cons.mp hx2 with hx3 | hx3
      · rw [hx3]; exact hk
      · exact hb x hx3
    · simp only [insort_desc, if_neg hk]
      rw [List.pairwise_cons]
      refine ⟨?_, List.pairwise_cons.mpr ⟨hb, hrest⟩⟩
      intro x hx
      have hba : key b ≤ key a := le_of_lt (lt_of_not_le hk)
      rcases List.mem_cons.mp hx with hx3 | hx3
      · rw [hx3]; exact hba
      · exact le_trans (hb x hx3) hba

theorem sort_desc_pairwise {α : Type} (key : α → ℚ) :
    ∀ l : List α, (sort_desc key l).Pairwise (fun x y => key y ≤ key x) := by
  intro l
  induction l with
  | nil => simp [sort_desc]
  | cons a rest ih => exact insort_desc_pairwise key a ih

/-- `moves.prioritized(board)`: the legal moves sorted by
`prioritize_move`, most promising first.  (The source stores the priority
on the move object and sorts by that attribute; the attribute is a pure
function of board and move, modelled by using it as the sort key.) -/
def prioritized (pos : Pos) : List Move :=
  sort_desc (prioritize_move pos) (legal_moves pos)

/-- The transient `move.prio` attribute set by
`moves.moves_for_rest_search`: the MVV-LVA value for captures, `-1`
otherwise. -/
def rest_prio (pos : Pos) (move : Move) : ℚ :=
  let takes := is_move_takes pos move
  if takes.1 then takes.2 else -1

/-- `moves.moves_for_rest_search(board)`: sort all legal moves by
`rest_prio` descending and keep the first `number_of_moves` elements,
where `number_of_moves` counts the capturing moves. -/
def moves_for_rest_search (pos : Pos) : List Move :=
  let ms := legal_moves pos
  let number_of_moves :=
    (ms.filter (fun m => (is_move_takes pos m).1)).length
  (sort_desc (rest_prio pos) ms).take number_of_moves

/-- `moves.best_move_for_rest_search(board)`: head of
`moves_for_rest_search`, or `None`. -/
def best_move_for_rest_search (pos : Pos) : Option Move :=
  (moves_for_rest_search pos).head?

/-! ### `transpositions.py`: transposition table -/

/-- Splitting a character list at every occurrence of a separator, as
Python's `str.split(" ")` does (consecutive separators yield empty
fields). -/
def split_char (sep : Char) : List Char → List (List Char)
  | [] => [[]]
  | c :: cs =>
    let r := split_char sep cs
    if c = sep then [] :: r
    else
      match r with
      | [] => [[c]]
      | g :: gs => (c :: g) :: gs

/-- Python `fen.split(" ")`. -/
def split_spaces (s : String) : List String :=
  (split_char ' ' s.data).map List.asString

/-- Python `" ".join(fields)`. -/
def join_spaces : List String → String
  | [] => ""
  | [s] => s
  | s :: rest => s ++ " " ++ join_spaces rest

/-- `transpositions.cut_fen(board)`: the first four whitespace-separated
fields of the board's FEN, rejoined with single spaces. -/
def cut_fen (board : Pos) : String :=
  join_spaces ((split_spaces board.fen).take 4)

/-- `transpositions.PV_NODE` (`range(3)` gives `PV, CUT, ALL = 0, 1, 2`). -/
def PV_NODE : Nat := 0

/-- `transpositions.CUT_NODE`. -/
def CUT_NODE : Nat := 1

/-- `transpositions.ALL_NODE`. -/
def ALL_NODE : Nat := 2

/-- `transpositions.TranspositionTableEntry`.  `depth` lives in
`WithTop Nat` because the source stores `float("inf")` for
tablebase-resolved entries; `moves` is `None` until filled; `node_type` is
`None` until `calc_node_type` runs. -/
structure TranspositionTableEntry where
  score : ℚ
  depth : WithTop Nat
  moves : Option (List Move)
  node_type : Option Nat
deriving DecidableEq

/-- `TranspositionTableEntry()` constructed with its default arguments
(`moves=None, depth=0, score=0, node_type=None`). -/
def entry_new : TranspositionTableEntry :=
  TranspositionTableEntry.mk 0 0 none none

/-- `TranspositionTableEntry.calc_node_type(alpha, beta)` as a function of
the entry's score: `CUT_NODE` when `score >= beta`, else `ALL_NODE` when
`score <= alpha`, else `PV_NODE`. -/
def calc_node_type (score alpha beta : ℚ) : Nat :=
  if beta ≤ score then CUT_NODE
  else if score ≤ alpha then ALL_NODE
  else PV_NODE

/-- The transposition table: a Python dict `str → entry`, modelled as an
association list where the newest binding for a key shadows older ones
(dict overwrite = last write wins through `tt_get_key`). -/
def TT : Type := List (String × TranspositionTableEntry)

/-- Dict read with a string key (`dict.__getitem__`; absence = `KeyError`,
modelled by `none`). -/
def tt_get_key (t : TT) (key : String) : Option TranspositionTableEntry :=
  assoc_find key t

/-- Dict write with a string key (`dict.__setitem__`). -/
def tt_put_key (t : TT) (key : String) (e : TranspositionTableEntry) : TT :=
  (key, e) :: t

/-- `TranspositionTable.__getitem__` with a `chess.Board` key: the key is
first reduced with `cut_fen`. -/
def tt_get (t : TT) (board : Pos) : Option TranspositionTableEntry :=
  tt_get_key t (cut_fen board)

/-- `TranspositionTable.__setitem__` with a `chess.Board` key. -/
def tt_put (t : TT) (board : Pos) (e : TranspositionTableEntry) : TT :=
  tt_put_key t (cut_fen board) e

/-! ### `time_management.py`: time allocation -/

/-- `TimeManager.allocate_time()`.  All clock fields are in milliseconds;
`available` is converted to seconds first, and the floor is applied to the
per-move share expressed in seconds. -/
def allocate_time (base_time unconditional_increment conditional_increment
    moves_to_go : ℚ) : ℚ :=
  let available := base_time / 1000
  min ((⌊available / moves_to_go⌋ : ℚ)
        + unconditional_increment / 1000
        + conditional_increment / 1000)
    (available * 0.5)

/-- The allocation formula asserted by the specification: the per-move
share is floored while still expressed in milliseconds, and the result is
converted to seconds at the end. -/
def claim_allocate_time (base_time unconditional_increment
    conditional_increment moves_to_go : ℚ) : ℚ :=
  min ((⌊base_time / moves_to_go⌋ : ℚ)
        + unconditional_increment + conditional_increment)
    (0.5 * base_time) / 1000

/-! ### `searching.py`: negamax search

The searcher's mutable state is threaded explicitly: the transposition
table, the board's move stack (`board.push` appends, `board.pop` removes
the last element), and a counter of `is_stopped()` reads.  The stop flag is
set asynchronously by the time manager; it is modelled as a schedule
`sched : Nat → Bool` giving the value observed by the n-th `is_stopped()`
read of the search.  Python exceptions are modelled with `Except`. -/

/-- Python exceptions that can cross the modelled code. -/
inductive PyErr where
  | typeError
  | keyError
  | tableNotFound
deriving DecidableEq, Repr

/-- Mutable searcher state: transposition table, board move stack, and the
count of `is_stopped()` reads made so far. -/
structure St where
  tt : TT
  stack : List Move
  time : Nat

/-- The searcher's environment: the stop-flag schedule (indexed by
`is_stopped()` read count), the `look_up_end_game` flag, and the catalogue
oracles `catalogue.get_endgame_wdl` / `catalogue.endgame_lookup`, either of
which may raise. -/
structure Env where
  sched : Nat → Bool
  look_up_end_game : Bool
  wdl : Pos → Except PyErr Int
  eg_move : Pos → Except PyErr Move

/-- A one-way stop signal: once observed set, it stays set. -/
def sched_mono (f : Nat → Bool) : Prop :=
  ∀ i j : Nat, i ≤ j → f i = true → f j = true

/-- `catalogue.MAX_GAVIOTA_PIECES`. -/
def MAX_GAVIOTA_PIECES : Nat := 4

/-- `BaseException.with_traceback(tb)` takes exactly one argument; calling
it with any other number of arguments raises `TypeError`.  The source's
except-handler calls it with zero arguments. -/
def with_traceback (args : List Unit) : Except PyErr Unit :=
  if args.length = 1 then Except.ok () else Except.error PyErr.typeError

/-- Outcome of the transposition-table probe at the top of
`Search.negamax`: either an early `return stored_data.score`, or
continuation with (possibly adjusted) bounds. -/
inductive ProbeOut where
  | ret (v : ℚ)
  | cont (alpha beta : ℚ)
deriving DecidableEq

/-- The probe block of `Search.negamax` (lines 361-371): on a hit with
`stored_data.depth >= depth`, return the stored score for `PV_NODE` or
when `alpha >= beta`; otherwise widen `alpha` on `ALL_NODE` entries and
lower `beta` on `CUT_NODE` entries.  A miss (`KeyError`) changes nothing.
-/
def probe_bounds : Option TranspositionTableEntry → Nat → ℚ → ℚ → ProbeOut
  | none, _, alpha, beta => ProbeOut.cont alpha beta
  | some e, depth, alpha, beta =>
    if (depth : WithTop Nat) ≤ e.depth then
      if e.node_type = some PV_NODE ∨ beta ≤ alpha then ProbeOut.ret e.score
      else if e.node_type = some ALL_NODE then
        ProbeOut.cont (max alpha e.score) beta
      else if e.node_type = some CUT_NODE then
        ProbeOut.cont alpha (min beta e.score)
      else ProbeOut.cont alpha beta
    else ProbeOut.cont alpha beta

/-- The bound adjustment asserted by the specification for a probed entry
that is deep enough and not returned directly: `LOWER_BOUND` (`CUT_NODE`)
raises `alpha` to `max(alpha, e.score)`, `UPPER_BOUND` (`ALL_NODE`) lowers
`beta` to `min(beta, e.score)`. -/
def claim_probe_adjust (e : TranspositionTableEntry) (alpha beta : ℚ) :
    ℚ × ℚ :=
  (if e.node_type = some CUT_NODE then max alpha e.score else alpha,
   if e.node_type = some ALL_NODE then min beta e.score else beta)

/-- `Search.end_game_lookup(state, stored_data, factor)`: compute
`100000 * wdl * factor`, look up the tablebase move (either call may
raise), fill the entry (`depth = inf`, single move, `node_type`
untouched), store it, and return the value. -/
def end_game_lookup (env : Env) (pos : Pos)
    (stored_data : TranspositionTableEntry) (factor : ℚ) (s : St) :
    Except PyErr ℚ × St :=
  match env.wdl pos with
  | Except.error e => (Except.error e, s)
  | Except.ok w =>
    let value : ℚ := 100000 * (w : ℚ) * factor
    match env.eg_move pos with
    | Except.error e => (Except.error e, s)
    | Except.ok mv =>
      let entry := { stored_data with
        score := value, depth := (⊤ : WithTop Nat), moves := some [mv] }
      (Except.ok value,
        { s with tt := tt_put_key s.tt (cut_fen pos) entry })

/-- `Search.quiesce(state, alpha, beta)`, with the board's move stack
threaded through push / pop. -/
def quiesce (pos : Pos) (alpha beta : ℚ) (stack : List Move) :
    ℚ × List Move :=
  let factor : ℚ := if pos.turn then 1 else -1
  let current_value := pos.evalWhite * factor
  if beta < current_value then (beta, stack)
  else
    let alpha := if alpha < current_value then current_value else alpha
    match best_move_for_rest_search pos with
    | none => (alpha, stack)
    | some best_capture =>
      match find_child pos best_capture with
      | none => (alpha, stack)
      | some child =>
        let rec_result :=
          quiesce child.val (-beta) (-alpha) (stack ++ [best_capture])
        let new_score := -rec_result.1
        let stack := rec_result.2.dropLast
        if beta ≤ new_score then (beta, stack)
        else if alpha < new_score then (new_score, stack)
        else (alpha, stack)
termination_by sizeOf pos
decreasing_by exact child.property

/-- The assigned value read back by the post-loop sort
(`move.assigned_value`): the value recorded during this node's child loop,
or the initialisation `-100001` (`actions_with_assigned_values`). -/
def assigned_value (assigned : List (Move × ℚ)) (m : Move) : ℚ :=
  match assoc_find m assigned with
  | some v => v
  | none => -100001

/-- The write at the end of `Search.negamax` (lines 411-414): one more
`is_stopped()` read; the entry is filled and stored only when it returns
false. -/
def store_if_running (env : Env) (s : St) (key : String)
    (entry : TranspositionTableEntry) : St :=
  if env.sched s.time then { s with time := s.time + 1 }
  else { s with time := s.time + 1, tt := tt_put_key s.tt key entry }

/-- The child-exploration loop of `Search.negamax`: push the move, recurse
(`f` is the recursive call on the successor position, abstracted so that
the loop is structural), pop, record the assigned value, β-cut with
`alpha = beta` on `assigned_value >= beta`, else raise `alpha`.  An
exception from the recursive call propagates without popping.  A move with
no successor in the model (impossible for moves generated from this
position) is modelled as a raise. -/
def child_loop {pos : Pos}
    (f : {c : Pos // sizeOf c < sizeOf pos} → ℚ → ℚ → St → Except PyErr ℚ × St)
    (find : Move → Option {c : Pos // sizeOf c < sizeOf pos}) :
    List Move → ℚ → ℚ → St → List (Move × ℚ) →
    Except PyErr (ℚ × List (Move × ℚ)) × St
  | [], alpha, _, s, assigned => (Except.ok (alpha, assigned), s)
  | m :: rest, alpha, beta, s, assigned =>
    match find m with
    | none => (Except.error PyErr.keyError, s)
    | some child =>
      let s1 := { s with stack := s.stack ++ [m] }
      match f child (-beta) (-alpha) s1 with
      | (Except.error e, s2) => (Except.error e, s2)
      | (Except.ok v0, s2) =>
        let v := -v0
        let s3 := { s2 with stack := s2.stack.dropLast }
        let assigned1 := assigned ++ [(m, v)]
        if beta ≤ v then (Except.ok (beta, assigned1), s3)
        else
          child_loop f find rest (if alpha < v then v else alpha) beta s3
            assigned1

/-- `stored_data` after the probe's `try/except KeyError`: the entry found
in the table, or a fresh `TranspositionTableEntry()`. -/
def stored_entry (tt : TT) (key : String) : TranspositionTableEntry :=
  match tt_get_key tt key with
  | some e => e
  | none => entry_new

/-- `factor = (1 if state.turn else -1)` in `Search.negamax`. -/
def negamax_factor (pos : Pos) : ℚ :=
  if pos.turn then 1 else -1

/-- One `is_stopped()` read has been consumed: the read counter advances.
-/
def bump (s : St) : St :=
  { s with time := s.time + 1 }

/-- The guarded tablebase block of `Search.negamax` (lines 384-391):
`some result` means the `try` block returned (successfully, or with the
`TypeError` raised by the handler's zero-argument
`exception.with_traceback()` call); `none` means either the guard was
false or the exception was logged and execution continues below. -/
def eg_probe (env : Env) (pos : Pos) (stored_data : TranspositionTableEntry)
    (factor : ℚ) (s : St) : Option (Except PyErr ℚ × St) :=
  if env.look_up_end_game ∧ pos.pieceMap.length ≤ MAX_GAVIOTA_PIECES then
    match end_game_lookup env pos stored_data factor s with
    | (Except.ok v, s1) => some (Except.ok v, s1)
    | (Except.error _e, s1) =>
      match with_traceback [] with
      | Except.error e2 => some (Except.error e2, s1)
      | Except.ok _ => none
  else none

/-- `return self.quiesce(state, alpha, beta)` at `depth == 0`, with the
move stack threaded. -/
def quiesce_step (pos : Pos) (alpha beta : ℚ) (s : St) :
    Except PyErr ℚ × St :=
  (Except.ok (quiesce pos alpha beta s.stack).1,
    { s with stack := (quiesce pos alpha beta s.stack).2 })

/-- The `actions` list of `Search.negamax`: the probed entry's moves when
present (PV reuse), else `prioritized(state)` (whose moves all carry the
`assigned_value` initialisation `-100001`, handled by `assigned_value`).
-/
def entry_actions (pos : Pos) (stored_data : TranspositionTableEntry) :
    List Move :=
  match stored_data.moves with
  | none => prioritized pos
  | some ms => ms

/-- The entry written at the end of `Search.negamax`: `fill(score=alpha,
depth=depth, moves=sorted actions)` followed by
`calc_node_type(alpha_original, beta)`. -/
def final_entry (stored_data : TranspositionTableEntry) (alpha1 : ℚ)
    (depth : Nat) (assigned : List (Move × ℚ)) (actions : List Move)
    (alpha_original beta : ℚ) : TranspositionTableEntry :=
  { stored_data with
    score := alpha1, depth := (depth : WithTop Nat),
    moves := some (sort_desc (assigned_value assigned) actions),
    node_type := some (calc_node_type alpha1 alpha_original beta) }

/-- `Search.negamax(state, depth, alpha, beta)`.  In the `cont` branch
`alpha2, beta2` are the probe-adjusted bounds and the original `alpha`
parameter plays the role of `alpha_original`. -/
def negamax (env : Env) (pos : Pos) (depth : Nat) (alpha beta : ℚ)
    (s : St) : Except PyErr ℚ × St :=
  match probe_bounds (tt_get_key s.tt (cut_fen pos)) depth alpha beta with
  | ProbeOut.ret v => (Except.ok v, s)
  | ProbeOut.cont alpha2 beta2 =>
    if env.sched s.time then
      (Except.ok (pos.evalWhite * negamax_factor pos), bump s)
    else if pos.gameOver then
      (Except.ok (pos.evalWhite * negamax_factor pos), bump s)
    else
      match eg_probe env pos (stored_entry s.tt (cut_fen pos))
          (negamax_factor pos) (bump s) with
      | some r => r
      | none =>
        if depth = 0 then quiesce_step pos alpha2 beta2 (bump s)
        else
          match child_loop
              (fun c a b st => negamax env c.val (depth - 1) a b st)
              (find_child pos)
              (entry_actions pos (stored_entry s.tt (cut_fen pos)))
              alpha2 beta2 (bump s) [] with
          | (Except.error e, s1) => (Except.error e, s1)
          | (Except.ok (alpha1, assigned), s1) =>
            (Except.ok alpha1,
              store_if_running env s1 (cut_fen pos)
                (final_entry (stored_entry s.tt (cut_fen pos)) alpha1 depth
                  assigned
                  (entry_actions pos (stored_entry s.tt (cut_fen pos)))
                  alpha beta2))
termination_by sizeOf pos
decreasing_by exact c.property

/-! ### `Search.iterative_deepening` and `Search.run`

The generator is modelled as the list of values it yields.  The per-depth
search `alpha_beta_search` is abstracted as an oracle giving the
`(move, score)` pair of each depth (the claims settled against this model
do not depend on its internals); the two `is_stopped()` reads of every
loop iteration read the stop schedule at consecutive indices. -/

structure IDEnv where
  search_result : Nat → Move × ℚ
  sched : Nat → Bool
  opening_move : Option Move
  look_up_opening : Bool
  game_state_opening : Bool

/-- The `while True` loop of `Search.iterative_deepening`: run the depth-d
search, yield its move if the first `is_stopped()` read is false, then
return if the second read is true or the depth bound is passed or a forced
mate score was proven.  `fuel` only bounds the recursion; `max_depth + 1`
iterations always suffice because the loop returns once `depth`
exceeds `max_depth`. -/
def id_loop (env : IDEnv) (max_depth : Nat) :
    Nat → Nat → Nat → List Move → List Move
  | 0, _, _, acc => acc
  | fuel + 1, depth, t, acc =>
    let d := depth + 1
    let res := env.search_result d
    let stopped1 := env.sched t
    let acc1 := if stopped1 then acc else acc ++ [res.1]
    let stopped2 := env.sched (t + 1)
    if stopped2 || decide (max_depth < d) then acc1
    else if decide (res.2 = 100000) || decide (res.2 = -100000) then acc1
    else id_loop env max_depth fuel d (t + 2) acc1

/-- `Search.iterative_deepening(state, max_depth)` as the list of yielded
moves.  The opening-book branch yields the book move and returns.
Otherwise the local `decision` is initialised to the first legal move
(raising `IndexError` — hence no yields — when there are none); note the
initial value is dead: every yield is preceded by `decision = move`. -/
def iterative_deepening (env : IDEnv) (legal : List Move)
    (max_depth : Nat) : List Move :=
  match
    (if env.look_up_opening ∧ env.game_state_opening then env.opening_move
     else none) with
  | some opening_book_move => [opening_book_move]
  | none =>
    match legal.head? with
    | none => []
    | some _decision_init => id_loop env max_depth (max_depth + 1) 0 0 []

/-- `Search.run()`: returns immediately on a finished game; otherwise
`self.decision` is assigned each yielded move in turn, so the committed
decision is the last yielded move — or `None` when nothing was yielded
(`self.__decision` is initialised to `None`). -/
def run_decision (game_over : Bool) (env : IDEnv) (legal : List Move)
    (max_depth : Nat) : Option Move :=
  if game_over then none
  else (iterative_deepening env legal max_depth).getLast?

/-! ### Claim C4: time allocation -/

theorem floor_div_thousand (x : ℚ) :
    (⌊x / 1000⌋ : ℚ) ≤ (⌊x⌋ : ℚ) / 1000 := by
  have h1 : ((⌊x / 1000⌋ : ℚ)) ≤ x / 1000 := Int.floor_le _
  have h2 : ((1000 * ⌊x / 1000⌋ : ℤ) : ℚ) ≤ x := by push_cast; linarith
  have h3 : (1000 * ⌊x / 1000⌋ : ℤ) ≤ ⌊x⌋ := Int.le_floor.mpr (by
    exact_mod_cast h2)
  have h4 : ((1000 * ⌊x / 1000⌋ : ℤ) : ℚ) ≤ (⌊x⌋ : ℚ) := by exact_mod_cast h3
  rw [le_div_iff (by norm_num : (0:ℚ) < 1000)]
  push_cast at h4 ⊢
  linarith

/-- C4 counterexample: with `base_time = 1000` ms, `moves_to_go = 40` and
no increments, the code allocates `0` seconds (the per-move share is
floored after converting to seconds), while the claimed formula gives
`25 / 1000 = 1/40` seconds. -/
theorem allocate_time_cex :
    allocate_time 1000 0 0 40 = 0 ∧
    claim_allocate_time 1000 0 0 40 = 1 / 40 ∧
    allocate_time 1000 0 0 40 ≠ claim_allocate_time 1000 0 0 40 := by
  norm_num [allocate_time, claim_allocate_time]

/-- C4 (amended): `allocate_time` converts the clock to seconds first and
floors the per-move share in seconds:
`min(floor((B/1000)/M) + U/1000 + C/1000, B/2000)`; consequently it never
exceeds the allocation claimed by the specification (which floors in
milliseconds). -/
theorem allocate_time_amended (B U C M : ℚ) (hM : 0 < M) :
    allocate_time B U C M
      = min ((⌊(B / 1000) / M⌋ : ℚ) + U / 1000 + C / 1000) (B / 2000) ∧
    allocate_time B U C M ≤ claim_allocate_time B U C M := by
  constructor
  · unfold allocate_time
    congr 1
    ring
  · unfold allocate_time claim_allocate_time
    have hdiv : (B / 1000) / M = (B / M) / 1000 := by ring
    have h1 : (⌊(B / 1000) / M⌋ : ℚ) ≤ (⌊B / M⌋ : ℚ) / 1000 := by
      rw [hdiv]; exact floor_div_thousand (B / M)
    rw [← min_div_div_right (by norm_num : (0:ℚ) ≤ 1000)]
    apply min_le_min
    · rw [add_div, add_div]
      linarith
    · apply le_of_eq
      ring

/-- C4 witness. -/
theorem allocate_time_amended_witness :
    (0:ℚ) < 2 ∧
    (allocate_time 3000 1000 0 2
        = min ((⌊((3000:ℚ) / 1000) / 2⌋ : ℚ) + 1000 / 1000 + 0 / 1000)
          ((3000:ℚ) / 2000) ∧
      allocate_time 3000 1000 0 2 ≤ claim_allocate_time 3000 1000 0 2) :=
  ⟨by norm_num, allocate_time_amended 3000 1000 0 2 (by norm_num)⟩

/-! ### Claim C6: node-type classification -/

/-- C6: `calc_node_type` classifies exactly as specified: `CUT_NODE`
(LOWER_BOUND) when `score >= beta`, else `ALL_NODE` (UPPER_BOUND) when
`score <= alpha`, else `PV_NODE` (EXACT); in particular with
`alpha = -1, beta = 1` the scores `0, -1, 1` classify as `PV_NODE`,
`ALL_NODE`, `CUT_NODE`.  The last conjunct records that the entry written
by `negamax` carries `calc_node_type(score, alpha_original, beta)` — and
in `negamax` the `alpha_original` argument of `final_entry` is the `alpha`
parameter bound at function entry, before the probe's widening. -/
theorem calc_node_type_correct :
    (∀ score alpha beta : ℚ,
      (beta ≤ score → calc_node_type score alpha beta = CUT_NODE) ∧
      (score < beta → score ≤ alpha →
        calc_node_type score alpha beta = ALL_NODE) ∧
      (alpha < score → score < beta →
        calc_node_type score alpha beta = PV_NODE)) ∧
    (calc_node_type 0 (-1) 1 = PV_NODE ∧
      calc_node_type (-1) (-1) 1 = ALL_NODE ∧
      calc_node_type 1 (-1) 1 = CUT_NODE) ∧
    (∀ (stored : TranspositionTableEntry) (alpha1 : ℚ) (depth : Nat)
      (assigned : List (Move × ℚ)) (actions : List Move)
      (alpha_original beta : ℚ),
      (final_entry stored alpha1 depth assigned actions alpha_original
          beta).node_type
        = some (calc_node_type alpha1 alpha_original beta)) := by
  refine ⟨?_,
    ⟨by norm_num [calc_node_type, PV_NODE, CUT_NODE, ALL_NODE],
      by norm_num [calc_node_type, PV_NODE, CUT_NODE, ALL_NODE],
      by norm_num [calc_node_type, PV_NODE, CUT_NODE, ALL_NODE]⟩,
    fun stored alpha1 depth assigned actions alpha_original beta => rfl⟩
  intro score alpha beta
  refine ⟨?_, ?_, ?_⟩
  · intro h
    simp [calc_node_type, h]
  · intro h1 h2
    rw [calc_node_type, if_neg (by linarith), if_pos h2]
  · intro h1 h2
    rw [calc_node_type, if_neg (by linarith), if_neg (by linarith)]

/-- C6 witness. -/
theorem calc_node_type_correct_witness :
    ((1:ℚ) ≤ 2) ∧ calc_node_type 2 (-1) 1 = CUT_NODE :=
  ⟨by norm_num, (calc_node_type_correct.1 2 (-1) 1).1 (by norm_num)⟩

/-! ### Claim C8: transposition-table addressing -/

/-- C8: round trip (`put` then `get` returns the stored entry), last write
wins, and any two boards whose FEN strings agree on the first four fields
(piece placement, side to move, castling rights, en-passant target)
address the same entry regardless of their halfmove / fullmove counters.
-/
theorem tt_round_trip :
    (∀ (t : TT) (b : Pos) (e : TranspositionTableEntry),
      tt_get (tt_put t b e) b = some e) ∧
    (∀ (t : TT) (b : Pos) (e1 e2 : TranspositionTableEntry),
      tt_get (tt_put (tt_put t b e1) b e2) b = some e2) ∧
    (∀ b1 b2 : Pos,
      (split_spaces b1.fen).take 4 = (split_spaces b2.fen).take 4 →
      cut_fen b1 = cut_fen b2 ∧
      ∀ (t : TT) (e : TranspositionTableEntry),
        tt_get (tt_put t b1 e) b2 = some e) := by
  refine ⟨?_, ?_, ?_⟩
  · intro t b e
    simp [tt_get, tt_put, tt_get_key, tt_put_key, assoc_find]
  · intro t b e1 e2
    simp [tt_get, tt_put, tt_get_key, tt_put_key, assoc_find]
  · intro b1 b2 h
    have hk : cut_fen b1 = cut_fen b2 := by
      unfold cut_fen
      rw [h]
    refine ⟨hk, ?_⟩
    intro t e
    simp [tt_get, tt_put, tt_get_key, tt_put_key, assoc_find, hk]

/-- A board with the start-position piece placement and counters 0 / 1. -/
def board_c8_a : Pos :=
  Pos.mk true false 0
    "rnbqkbnr/pppppppp/8/8/8/8/PPPPPPPP/RNBQKBNR w KQkq - 0 1" [] [] []

/-- The same first four FEN fields with counters 17 / 25. -/
def board_c8_b : Pos :=
  Pos.mk true false 0
    "rnbqkbnr/pppppppp/8/8/8/8/PPPPPPPP/RNBQKBNR w KQkq - 17 25" [] [] []

/-- C8 witness. -/
theorem tt_round_trip_witness :
    (split_spaces board_c8_a.fen).take 4
        = (split_spaces board_c8_b.fen).take 4 ∧
    (cut_fen board_c8_a = cut_fen board_c8_b ∧
      ∀ (t : TT) (e : TranspositionTableEntry),
        tt_get (tt_put t board_c8_a e) board_c8_b = some e) :=
  ⟨by decide, tt_round_trip.2.2 board_c8_a board_c8_b (by decide)⟩

/-! ### Claim C1: transposition-table probe bound adjustment -/

/-- A stored lower-bound entry: score 5, depth 3, classified `CUT_NODE`
(a beta-cutoff occurred, so the true value is at least 5). -/
def entry_c1 : TranspositionTableEntry :=
  TranspositionTableEntry.mk 5 3 none (some CUT_NODE)

/-- C1: at the failing input — a `CUT_NODE` (LOWER_BOUND) entry with score
5 and sufficient depth, probed at depth 1 with `alpha = 0, beta = 10` —
the code lowers `beta` to 5 and leaves `alpha` alone, while the
specification requires raising `alpha` to 5 and leaving `beta` alone: the
two bound adjustments are swapped in the source. -/
theorem probe_bounds_swapped :
    probe_bounds (some entry_c1) 1 0 10 = ProbeOut.cont 0 5 ∧
    claim_probe_adjust entry_c1 0 10 = (5, 10) ∧
    probe_bounds (some entry_c1) 1 0 10
      ≠ ProbeOut.cont (claim_probe_adjust entry_c1 0 10).1
          (claim_probe_adjust entry_c1 0 10).2 := by
  refine ⟨?_, ?_, ?_⟩ <;> decide

/-! ### Claim C2: decision committed under early cancellation -/

/-- A legal move of the C2 scenario. -/
def move_c2 : Move := Move.mk 8 16 none

/-- C2 scenario: the position has exactly one legal move, the opening
branch is not taken, and the stop flag is observed set at every
`is_stopped()` read (the search was cancelled before depth 1 completed).
The per-depth oracle still returns a move — the code's behaviour is the
same whether `alpha_beta_search` returns or raises, since its result is
only consumed after an `is_stopped()` read of false. -/
def idenv_c2 : IDEnv :=
  IDEnv.mk (fun _ => (move_c2, 0)) (fun _ => true) none true false

/-- C2: with at least one legal move and cancellation before depth 1
completes, `iterative_deepening` yields nothing — the initialised first
legal move is never yielded because every yield is guarded by a false
`is_stopped()` read — so `run` never assigns `self.decision` and the
committed decision is `None`, contradicting the claimed non-null
guarantee. -/
theorem stopped_search_decision_none :
    run_decision false idenv_c2 [move_c2] 100000 = none ∧
    iterative_deepening idenv_c2 [move_c2] 100000 = [] ∧
    [move_c2] ≠ [] := by
  refine ⟨?_, ?_, ?_⟩ <;> decide

/-- Sanity check of the iterative-deepening model: with the stop flag
never observed set and `max_depth = 1`, the loop completes depths 1 and 2
(the depth bound is checked after the increment and the yield, as in the
source) and the committed decision is the last completed depth's move. -/
theorem id_model_commits_last_depth :
    run_decision false
      (IDEnv.mk (fun d => (Move.mk d (d + 8) none, 0)) (fun _ => false)
        none true false)
      [Move.mk 0 8 none] 1
      = some (Move.mk 2 10 none) := by decide

/-! ### Claim C5: static move priority -/

/-- The advance test as the claim states it: destination rank greater than
source rank for white (smaller for black), with the rank of square `s`
being `s / 8`. -/
def claim_advances (pos : Pos) (move : Move) : Bool :=
  if pos.turn then decide (move.fromSq / 8 < move.toSq / 8)
  else decide (move.toSq / 8 < move.fromSq / 8)

/-- The static priority as the claim states it: 21 for checks, MVV-LVA
(`victim + (king - aggressor)/king`) for captures, 1 for rank-advancing
moves, else 0. -/
def claim_priority (pos : Pos) (move : Move) : ℚ :=
  if is_move_check pos move then 21
  else
    let takes := is_move_takes pos move
    if takes.1 then takes.2
    else if claim_advances pos move then 1
    else 0

/-- Successor of the C5 board (contents irrelevant to the claim). -/
def leaf_c5 : Pos := Pos.mk false false 0 "leaf" [] [] []

/-- The move Kb2-a3 (square 9 to square 16): a quiet king move to the
a-file, one rank up. -/
def move_c5 : Move := Move.mk 9 16 none

/-- White king on b2, black king on h8, white to move; Kb2-a3 is legal,
captures nothing and gives no check. -/
def board_c5 : Pos :=
  Pos.mk true false 0 "8/7k/8/8/8/8/1K6/8 w - - 0 1"
    [(9, Piece.mk PieceType.king true), (63, Piece.mk PieceType.king false)]
    [] [(move_c5, leaf_c5)]

/-- C5 counterexample: Kb2-a3 advances a rank (1 to 2), so the claim
assigns priority 1, but the source computes the row of a square as
`(square - 1) // 8`, which maps both b2 (9) and a3 (16) to row 1, and
assigns priority 0. -/
theorem prioritize_move_cex :
    move_c5 ∈ legal_moves board_c5 ∧
    prioritize_move board_c5 move_c5 = 0 ∧
    claim_priority board_c5 move_c5 = 1 ∧
    prioritize_move board_c5 move_c5 ≠ claim_priority board_c5 move_c5 := by
  refine ⟨?_, ?_, ?_, ?_⟩ <;> decide

theorem fdiv_row_eq_rank {sq : Nat} (h : sq % 8 ≠ 0) :
    ((sq : Int) - 1).fdiv 8 = ((sq / 8 : Nat) : Int) := by
  have hcast : ((sq : Int) - 1) = (((sq - 1 : Nat)) : Int) := by omega
  rw [hcast]
  have h2 : (((sq - 1 : Nat)) : Int).fdiv 8 = (((sq - 1) / 8 : Nat) : Int) :=
    (Int.ofNat_fdiv (sq - 1) 8).symm
  rw [h2]
  congr 1
  omega

/-- C5 (amended): the priority computed by the source matches the claimed
priority except that the advance test uses rows `(square - 1) // 8`
instead of ranks `square / 8`; the two agree whenever neither square lies
on the a-file.  `prioritized` returns a permutation of the legal moves in
non-increasing priority order. -/
theorem prioritized_amended :
    (∀ (pos : Pos) (move : Move),
      move.fromSq % 8 ≠ 0 → move.toSq % 8 ≠ 0 →
      prioritize_move pos move = claim_priority pos move) ∧
    (∀ pos : Pos,
      (prioritized pos).Pairwise
        (fun a b => prioritize_move pos b ≤ prioritize_move pos a) ∧
      List.Perm (prioritized pos) (legal_moves pos)) := by
  constructor
  · intro pos move hfrom hto
    have hrow : is_move_forward pos move = claim_advances pos move := by
      unfold is_move_forward claim_advances
      rw [fdiv_row_eq_rank hfrom, fdiv_row_eq_rank hto]
      by_cases ht : pos.turn
      · simp only [ht, if_true, Nat.cast_lt]
      · simp only [ht, if_false, Nat.cast_lt]
    unfold prioritize_move claim_priority
    rw [hrow]
  · intro pos
    exact ⟨sort_desc_pairwise (prioritize_move pos) (legal_moves pos),
      sort_desc_perm (prioritize_move pos) (legal_moves pos)⟩

/-- C5 witness: a quiet b2-b3 style move away from the a-file. -/
theorem prioritized_amended_witness :
    ((10:Nat) % 8 ≠ 0 ∧ (18:Nat) % 8 ≠ 0) ∧
    prioritize_move board_c5 (Move.mk 10 18 none)
      = claim_priority board_c5 (Move.mk 10 18 none) :=
  ⟨⟨by decide, by decide⟩,
    prioritized_amended.1 board_c5 (Move.mk 10 18 none) (by decide)
      (by decide)⟩

/-! ### Helper lemmas: quiescence capture selection -/

theorem one_le_values (pt : PieceType) : 1 ≤ SIMPLE_MATERIAL_VALUES pt := by
  cases pt <;> norm_num [SIMPLE_MATERIAL_VALUES]

theorem values_le_king (pt : PieceType) :
    SIMPLE_MATERIAL_VALUES pt ≤ SIMPLE_MATERIAL_VALUES PieceType.king := by
  cases pt <;> norm_num [SIMPLE_MATERIAL_VALUES]

theorem one_le_mvv_lva (a v : Piece) : 1 ≤ mvv_lva a v := by
  unfold mvv_lva
  have h1 := one_le_values v.piece_type
  have h2 := values_le_king a.piece_type
  have h3 : (0:ℚ) ≤ (SIMPLE_MATERIAL_VALUES PieceType.king -
      SIMPLE_MATERIAL_VALUES a.piece_type) /
      SIMPLE_MATERIAL_VALUES PieceType.king := by
    apply div_nonneg
    · linarith
    · norm_num [SIMPLE_MATERIAL_VALUES]
  linarith

theorem takes_snd_ge_one {pos : Pos} {m : Move}
    (h : (is_move_takes pos m).1 = true) : 1 ≤ (is_move_takes pos m).2 := by
  cases hv : piece_at pos m.toSq with
  | none => simp [is_move_takes, hv] at h
  | some victim =>
    cases ha : piece_at pos m.fromSq with
    | none =>
      have heq : is_move_takes pos m = (true, mvv_lva piece_default victim) := by
        simp [is_move_takes, hv, ha]
      rw [heq]
      exact one_le_mvv_lva piece_default victim
    | some aggressor =>
      have heq : is_move_takes pos m = (true, mvv_lva aggressor victim) := by
        simp [is_move_takes, hv, ha]
      rw [heq]
      exact one_le_mvv_lva aggressor victim

theorem rest_prio_capture {pos : Pos} {m : Move}
    (h : (is_move_takes pos m).1 = true) :
    rest_prio pos m = (is_move_takes pos m).2 := by
  simp [rest_prio, h]

theorem rest_prio_noncapture {pos : Pos} {m : Move}
    (h : (is_move_takes pos m).1 = false) : rest_prio pos m = -1 := by
  simp [rest_prio, h]

/-- `best_move_for_rest_search` returns a capture of maximal MVV-LVA value
among the legal moves whose destination square is occupied, and `None`
exactly when there is no such move. -/
theorem best_move_spec (pos : Pos) :
    (∀ m : Move, best_move_for_rest_search pos = some m →
      (is_move_takes pos m).1 = true ∧ m ∈ legal_moves pos ∧
      ∀ m2 ∈ legal_moves pos, (is_move_takes pos m2).1 = true →
        (is_move_takes pos m2).2 ≤ (is_move_takes pos m).2) ∧
    (best_move_for_rest_search pos = none →
      ∀ m2 ∈ legal_moves pos, (is_move_takes pos m2).1 = false) := by
  have hbest : best_move_for_rest_search pos =
      ((sort_desc (rest_prio pos) (legal_moves pos)).take
        ((legal_moves pos).filter
          (fun m => (is_move_takes pos m).1)).length).head? := rfl
  have hperm : List.Perm (sort_desc (rest_prio pos) (legal_moves pos))
      (legal_moves pos) := sort_desc_perm _ _
  have hsorted := sort_desc_pairwise (rest_prio pos) (legal_moves pos)
  by_cases hn :
      ((legal_moves pos).filter (fun m => (is_move_takes pos m).1)).length = 0
  · have hfilter :
        (legal_moves pos).filter (fun m => (is_move_takes pos m).1) = [] :=
      List.length_eq_zero.mp hn
    have hnone : best_move_for_rest_search pos = none := by
      rw [hbest, hn]
      simp
    refine ⟨?_, ?_⟩
    · intro m hm
      rw [hnone] at hm
      cases hm
    · intro _ m2 hm2
      by_contra hc
      have hc2 : (is_move_takes pos m2).1 = true := by
        cases h2 : (is_move_takes pos m2).1
        · exact absurd h2 hc
        · rfl
      have : m2 ∈ (legal_moves pos).filter
          (fun m => (is_move_takes pos m).1) :=
        List.mem_filter.mpr ⟨hm2, hc2⟩
      rw [hfilter] at this
      cases this
  · obtain ⟨b, tl, hL⟩ :
        ∃ b tl, sort_desc (rest_prio pos) (legal_moves pos) = b :: tl := by
      have hlen : ((legal_moves pos).filter
          (fun m => (is_move_takes pos m).1)).length ≤
          (sort_desc (rest_prio pos) (legal_moves pos)).length := by
        rw [hperm.length_eq]
        exact List.length_filter_le _ _
      cases hcase : sort_desc (rest_prio pos) (legal_moves pos) with
      | nil =>
        rw [hcase] at hlen
        simp only [List.length_nil, Nat.le_zero] at hlen
        exact absurd hlen hn
      | cons b tl => exact ⟨b, tl, rfl⟩
    obtain ⟨k, hk⟩ : ∃ k, ((legal_moves pos).filter
        (fun m => (is_move_takes pos m).1)).length = k + 1 := by
      cases hcase : ((legal_moves pos).filter
          (fun m => (is_move_takes pos m).1)).length with
      | zero => exact absurd hcase hn
      | succ k => exact ⟨k, rfl⟩
    have hsome : best_move_for_rest_search pos = some b := by
      rw [hbest, hk, hL]
      simp
    have hb_mem : b ∈ legal_moves pos := by
      rw [← hperm.mem_iff, hL]
      exact List.mem_cons_self _ _
    have htl_le : ∀ x ∈ tl, rest_prio pos x ≤ rest_prio pos b := by
      rw [hL] at hsorted
      exact (List.pairwise_cons.mp hsorted).1
    have hb_capture : (is_move_takes pos b).1 = true := by
      by_contra hc
      have hcb : (is_move_takes pos b).1 = false := by
        cases h2 : (is_move_takes pos b).1
        · rfl
        · exact absurd h2 hc
      have hbneg : rest_prio pos b = -1 := rest_prio_noncapture hcb
      obtain ⟨c, hc_mem⟩ : ∃ c, c ∈ (legal_moves pos).filter
          (fun m => (is_move_takes pos m).1) := by
        cases hcase : (legal_moves pos).filter
            (fun m => (is_move_takes pos m).1) with
        | nil => rw [hcase] at hk; simp at hk
        | cons c rest => exact ⟨c, List.mem_cons_self _ _⟩
      have hc_legal : c ∈ legal_moves pos := (List.mem_filter.mp hc_mem).1
      have hc_cap : (is_move_takes pos c).1 = true := by
        have := (List.mem_filter.mp hc_mem).2
        simpa using this
      have hc_in_L : c ∈ b :: tl := by
        rw [← hL, hperm.mem_iff]
        exact hc_legal
      have hc_ge : 1 ≤ rest_prio pos c := by
        rw [rest_prio_capture hc_cap]
        exact takes_snd_ge_one hc_cap
      rcases List.mem_cons.mp hc_in_L with hcb2 | hcb2
      · rw [hcb2] at hc_cap
        rw [hc_cap] at hcb
        cases hcb
      · have := htl_le c hcb2
        rw [hbneg] at this
        linarith
    refine ⟨?_, ?_⟩
    · intro m hm
      rw [hsome] at hm
      cases hm
      refine ⟨hb_capture, hb_mem, ?_⟩
      intro m2 hm2_legal hm2_cap
      have hm2_in_L : m2 ∈ b :: tl := by
        rw [← hL, hperm.mem_iff]
        exact hm2_legal
      rcases List.mem_cons.mp hm2_in_L with hm2b | hm2b
      · rw [hm2b]
      · have h1 := htl_le m2 hm2b
        rw [rest_prio_capture hm2_cap, rest_prio_capture hb_capture] at h1
        exact h1
    · intro hnone
      rw [hsome] at hnone
      cases hnone

/-! ### Helper lemmas: quiescence frame behaviour -/

theorem one_le_sizeOf_pos (pos : Pos) : 1 ≤ sizeOf pos := by
  cases pos
  simp only [Pos.mk.sizeOf_spec]
  omega

theorem quiesce_stack_aux : ∀ (n : Nat) (pos : Pos), sizeOf pos ≤ n →
    ∀ (alpha beta : ℚ) (stack : List Move),
      (quiesce pos alpha beta stack).2 = stack := by
  intro n
  induction n with
  | zero =>
    intro pos hpos
    have := one_le_sizeOf_pos pos
    omega
  | succ n ih =>
    intro pos hpos alpha beta stack
    rw [quiesce.eq_def]
    set fct : ℚ := (if pos.turn = true then (1:ℚ) else -1) with hfct
    split
    · simp [apply_ite Prod.snd]
    · split
      · simp [apply_ite Prod.snd]
      · rename_i child hchild
        have hsz : sizeOf child.val ≤ n := by
          have := child.property
          omega
        have hrec : ∀ (a b : ℚ) (s2 : List Move),
            (quiesce child.val a b s2).2 = s2 :=
          fun a b s2 => ih child.val hsz a b s2
        simp [hrec, List.dropLast_concat, apply_ite Prod.snd]

/-- Frame property of `Search.quiesce`: the push of the best capture is
paired with a pop, so the move stack is unchanged on return. -/
theorem quiesce_stack (pos : Pos) (alpha beta : ℚ) (stack : List Move) :
    (quiesce pos alpha beta stack).2 = stack :=
  quiesce_stack_aux (sizeOf pos) pos le_rfl alpha beta stack

/-! ### Claim C7: quiescence search -/

/-- The specification's `stand_pat`: `evaluate(p) * sign` with `sign = +1`
for white to move, `-1` otherwise. -/
def stand_pat (pos : Pos) : ℚ :=
  pos.evalWhite * (if pos.turn then 1 else -1)

/-- The specification's step 4: `alpha` raised to `stand_pat` when
`stand_pat > alpha`. -/
def alpha_raised (pos : Pos) (alpha : ℚ) : ℚ :=
  if alpha < stand_pat pos then stand_pat pos else alpha

/-- One unfolding of `quiesce` with the move stack already restored (using
the frame lemma `quiesce_stack`). -/
theorem quiesce_unfold (pos : Pos) (alpha beta : ℚ) (stack : List Move) :
    quiesce pos alpha beta stack =
      (if beta < stand_pat pos then ((beta, stack) : ℚ × List Move)
       else
         match best_move_for_rest_search pos with
         | none => (alpha_raised pos alpha, stack)
         | some m =>
           match find_child pos m with
           | none => (alpha_raised pos alpha, stack)
           | some child =>
             if beta ≤ -(quiesce child.val (-beta)
                  (-(alpha_raised pos alpha)) (stack ++ [m])).1 then
               (beta, stack)
             else if (alpha_raised pos alpha) < -(quiesce child.val (-beta)
                  (-(alpha_raised pos alpha)) (stack ++ [m])).1 then
               (-(quiesce child.val (-beta) (-(alpha_raised pos alpha))
                  (stack ++ [m])).1, stack)
             else (alpha_raised pos alpha, stack)) := by
  rw [quiesce.eq_def]
  simp only [stand_pat, alpha_raised, quiesce_stack, List.dropLast_concat]

/-- C7: `quiesce` computes exactly the specified procedure: return `beta`
when `stand_pat > beta`; otherwise raise `alpha` to `stand_pat` when
`stand_pat > alpha`; return the (possibly raised) `alpha` when there is no
capture; otherwise explore only the single best capture `m` with
`v = -quiesce(p after m, -beta, -alpha)`, returning `beta` when
`v >= beta` and `max(alpha, v)` otherwise.  The best capture is a legal
move to an occupied square of maximal MVV-LVA value, and it is `None`
exactly when no legal move captures. -/
theorem quiesce_matches_spec :
    (∀ (pos : Pos) (alpha beta : ℚ) (stack : List Move),
      (beta < stand_pat pos → quiesce pos alpha beta stack = (beta, stack)) ∧
      (¬ beta < stand_pat pos →
        (best_move_for_rest_search pos = none →
          quiesce pos alpha beta stack = (alpha_raised pos alpha, stack)) ∧
        (∀ (m : Move) (child : {c : Pos // sizeOf c < sizeOf pos}) (v : ℚ),
          best_move_for_rest_search pos = some m →
          find_child pos m = some child →
          v = -(quiesce child.val (-beta) (-(alpha_raised pos alpha))
              (stack ++ [m])).1 →
          quiesce pos alpha beta stack =
            (if beta ≤ v then beta
             else if alpha_raised pos alpha < v then v
             else alpha_raised pos alpha, stack)))) ∧
    (∀ (pos : Pos) (m : Move), best_move_for_rest_search pos = some m →
      (is_move_takes pos m).1 = true ∧ m ∈ legal_moves pos ∧
      ∀ m2 ∈ legal_moves pos, (is_move_takes pos m2).1 = true →
        (is_move_takes pos m2).2 ≤ (is_move_takes pos m).2) ∧
    (∀ pos : Pos, best_move_for_rest_search pos = none →
      ∀ m2 ∈ legal_moves pos, (is_move_takes pos m2).1 = false) := by
  refine ⟨?_, fun pos => (best_move_spec pos).1, fun pos => (best_move_spec pos).2⟩
  intro pos alpha beta stack
  constructor
  · intro h
    rw [quiesce_unfold, if_pos h]
  · intro h
    constructor
    · intro hb
      rw [quiesce_unfold, if_neg h, hb]
    · intro m child v hb hc hv
      rw [quiesce_unfold, if_neg h]
      simp only [hb, hc]
      subst hv
      split
      · rfl
      · split <;> rfl

/-- A game-over leaf used as a concrete quiescence input. -/
def leaf_c7 : Pos := Pos.mk false false 0 "leaf7" [] [] []

/-- C7 witness. -/
theorem quiesce_matches_spec_witness :
    (¬ (5:ℚ) < stand_pat leaf_c7) ∧
    best_move_for_rest_search leaf_c7 = none ∧
    quiesce leaf_c7 0 5 [] = (alpha_raised leaf_c7 0, []) := by
  have h1 : ¬ (5:ℚ) < stand_pat leaf_c7 := by
    norm_num [stand_pat, leaf_c7, Pos.evalWhite, Pos.turn]
  have h2 : best_move_for_rest_search leaf_c7 = none := by decide
  exact ⟨h1, h2, ((quiesce_matches_spec.1 leaf_c7 0 5 []).2 h1).1 h2⟩

/-! ### Helper lemmas: negamax frame behaviour -/

theorem store_if_running_stack (env : Env) (s : St) (key : String)
    (entry : TranspositionTableEntry) :
    (store_if_running env s key entry).stack = s.stack := by
  unfold store_if_running
  split <;> rfl

theorem end_game_lookup_stack (env : Env) (pos : Pos)
    (e : TranspositionTableEntry) (factor : ℚ) (s : St) :
    (end_game_lookup env pos e factor s).2.stack = s.stack := by
  unfold end_game_lookup
  cases env.wdl pos with
  | error err => rfl
  | ok w =>
    cases env.eg_move pos with
    | error err => rfl
    | ok mv => rfl

theorem child_loop_stack {pos : Pos}
    (f : {c : Pos // sizeOf c < sizeOf pos} → ℚ → ℚ → St → Except PyErr ℚ × St)
    (find : Move → Option {c : Pos // sizeOf c < sizeOf pos})
    (hf : ∀ (c : {c : Pos // sizeOf c < sizeOf pos}) (a b : ℚ) (st : St)
      (r : ℚ) (st2 : St), f c a b st = (Except.ok r, st2) →
      st2.stack = st.stack) :
    ∀ (acts : List Move) (alpha beta : ℚ) (s : St)
      (assigned : List (Move × ℚ)) (r : ℚ × List (Move × ℚ)) (s2 : St),
      child_loop f find acts alpha beta s assigned = (Except.ok r, s2) →
      s2.stack = s.stack := by
  intro acts
  induction acts with
  | nil =>
    intro alpha beta s assigned r s2 h
    simp only [child_loop] at h
    injection h with h1 h2
    subst h2
    rfl
  | cons m rest ih =>
    intro alpha beta s assigned r s2 h
    simp only [child_loop] at h
    cases hfind : find m with
    | none => rw [hfind] at h; simp at h
    | some child =>
      rw [hfind] at h
      simp only [] at h
      cases hrec : f child (-beta) (-alpha)
          { s with stack := s.stack ++ [m] } with
      | mk res st2 =>
        rw [hrec] at h
        cases res with
        | error e => simp at h
        | ok v0 =>
          simp only [] at h
          have hst2 : st2.stack = s.stack ++ [m] :=
            hf child _ _ _ _ _ hrec
          by_cases hcut : beta ≤ -v0
          · rw [if_pos hcut] at h
            injection h with h1 h2
            subst h2
            simp [hst2, List.dropLast_concat]
          · rw [if_neg hcut] at h
            have h3 := ih _ _ _ _ _ _ h
            rw [h3]
            simp [hst2, List.dropLast_concat]

theorem eg_probe_stack (env : Env) (pos : Pos)
    (e : TranspositionTableEntry) (factor : ℚ) (s : St)
    (res : Except PyErr ℚ) (s1 : St)
    (h : eg_probe env pos e factor s = some (res, s1)) :
    s1.stack = s.stack := by
  unfold eg_probe at h
  split at h
  · split at h
    · rename_i v s2 hlook
      injection h with h2
      injection h2 with h3 h4
      subst h4
      have h5 := end_game_lookup_stack env pos e factor s
      rw [hlook] at h5
      exact h5
    · rename_i e0 s2 hlook
      simp only [with_traceback, List.length_nil] at h
      injection h with h2
      injection h2 with h3 h4
      subst h4
      have h5 := end_game_lookup_stack env pos e factor s
      rw [hlook] at h5
      exact h5
  · cases h

theorem negamax_stack_aux : ∀ (n : Nat) (pos : Pos), sizeOf pos ≤ n →
    ∀ (env : Env) (depth : Nat) (alpha beta : ℚ) (s : St) (r : ℚ) (s2 : St),
      negamax env pos depth alpha beta s = (Except.ok r, s2) →
      s2.stack = s.stack := by
  intro n
  induction n with
  | zero =>
    intro pos hpos
    have := one_le_sizeOf_pos pos
    omega
  | succ n ih =>
    intro pos hpos env depth alpha beta s r s2 h
    rw [negamax.eq_def] at h
    split at h
    · injection h with h1 h2
      subst h2
      rfl
    · rename_i alpha2 beta2 hcont
      split at h
      · injection h with h1 h2
        subst h2
        rfl
      · split at h
        · injection h with h1 h2
          subst h2
          rfl
        · split at h
          · rename_i r0 hr0
            obtain ⟨res0, s1⟩ := r0
            injection h with h1 h2
            subst h2
            have h3 := eg_probe_stack env pos _ _ _ _ _ hr0
            rw [h3]
            rfl
          · split at h
            · unfold quiesce_step at h
              injection h with h1 h2
              subst h2
              simp [bump, quiesce_stack]
            · split at h
              · simp at h
              · rename_i alpha1 assigned s1 hloop
                injection h with h1 h2
                subst h2
                rw [store_if_running_stack]
                have hf : ∀ (c : {c : Pos // sizeOf c < sizeOf pos})
                    (a b : ℚ) (st : St) (rr : ℚ) (st2 : St),
                    negamax env c.val (depth - 1) a b st
                      = (Except.ok rr, st2) → st2.stack = st.stack := by
                  intro c a b st rr st2 hc
                  have hsz : sizeOf c.val ≤ n := by
                    have := c.property
                    omega
                  exact ih c.val hsz env (depth - 1) a b st rr st2 hc
                have h4 := child_loop_stack _ _ hf _ _ _ _ _ _ _ hloop
                rw [h4]
                rfl

/-! ### Claim C10: push/pop pairing (frame property) -/

/-- C10: every `negamax` invocation that returns normally, and every
`quiesce` invocation, leaves the board object unchanged — each push of a
child move is paired with a pop, so the move stack (hence the position and
its key) at exit equals the stack at entry.  An invocation that raises
(the tablebase `TypeError` path) is not covered: the claim restricts
itself to normal returns. -/
theorem search_preserves_board :
    (∀ (env : Env) (pos : Pos) (depth : Nat) (alpha beta : ℚ) (s : St)
      (r : ℚ) (s2 : St),
      negamax env pos depth alpha beta s = (Except.ok r, s2) →
      s2.stack = s.stack) ∧
    (∀ (pos : Pos) (alpha beta : ℚ) (stack : List Move),
      (quiesce pos alpha beta stack).2 = stack) :=
  ⟨fun env pos depth alpha beta s r s2 h =>
    negamax_stack_aux (sizeOf pos) pos le_rfl env depth alpha beta s r s2 h,
   quiesce_stack⟩

/-- A finished position (checkmate/stalemate leaf) used as a concrete
negamax input. -/
def pos_c10 : Pos := Pos.mk true true 7 "over" [] [] []

/-- An environment whose stop flag is never observed set and whose
tablebase is absent. -/
def env_c10 : Env :=
  Env.mk (fun _ => false) false
    (fun _ => Except.error PyErr.tableNotFound)
    (fun _ => Except.error PyErr.tableNotFound)

/-- C10 witness. -/
theorem search_preserves_board_witness :
    negamax env_c10 pos_c10 0 0 1 (St.mk [] [] 0)
      = (Except.ok (7 * 1), St.mk [] [] 1) ∧
    (St.mk [] [] 1 : St).stack = (St.mk [] [] 0 : St).stack := by
  have h : negamax env_c10 pos_c10 0 0 1 (St.mk [] [] 0)
      = (Except.ok (7 * 1), St.mk [] [] 1) := by
    rw [negamax.eq_def]
    norm_num [tt_get_key, assoc_find, probe_bounds, env_c10, pos_c10,
      Pos.gameOver, Pos.turn, Pos.evalWhite, negamax_factor, bump]
  exact ⟨h, search_preserves_board.1 env_c10 pos_c10 0 0 1 (St.mk [] [] 0)
    (7 * 1) (St.mk [] [] 1) h⟩

/-! ### Claim C9: no transposition-table writes after the stop signal -/

/-- C9: (i) a `negamax` invocation whose table probe falls through
(`ProbeOut.cont` — the only case in which the `is_stopped()` check is
reached) and whose entry check observes the stop flag set returns
`evaluate(p) * sign` immediately: exactly one flag read is consumed and
the returned state carries the unmodified transposition table and stack;
(ii) the store after child exploration is guarded by one more
`is_stopped()` read and leaves the table unchanged whenever that read
observes the flag set.  The flag is one-way (`sched_mono`). -/
theorem stopped_negamax_writes_nothing :
    (∀ (env : Env) (pos : Pos) (depth : Nat) (alpha beta a b : ℚ) (s : St),
      sched_mono env.sched →
      probe_bounds (tt_get_key s.tt (cut_fen pos)) depth alpha beta
        = ProbeOut.cont a b →
      env.sched s.time = true →
      negamax env pos depth alpha beta s
        = (Except.ok (pos.evalWhite * negamax_factor pos),
            St.mk s.tt s.stack (s.time + 1))) ∧
    (∀ (env : Env) (s : St) (key : String) (e : TranspositionTableEntry),
      env.sched s.time = true →
      store_if_running env s key e = St.mk s.tt s.stack (s.time + 1)) := by
  constructor
  · intro env pos depth alpha beta a b s _hmono hprobe hstop
    rw [negamax.eq_def, hprobe]
    simp only [hstop, if_true, bump]
  · intro env s key e hstop
    unfold store_if_running
    simp only [hstop, if_true]

/-- A quiet position for the C9 witness. -/
def pos_c9 : Pos := Pos.mk true false 0 "quiet" [] [] []

/-- An environment whose stop flag is set from the start. -/
def env_c9 : Env :=
  Env.mk (fun _ => true) false
    (fun _ => Except.error PyErr.tableNotFound)
    (fun _ => Except.error PyErr.tableNotFound)

/-- C9 witness. -/
theorem stopped_negamax_writes_nothing_witness :
    sched_mono env_c9.sched ∧
    probe_bounds (tt_get_key [] (cut_fen pos_c9)) 3 0 1 = ProbeOut.cont 0 1 ∧
    env_c9.sched 0 = true ∧
    negamax env_c9 pos_c9 3 0 1 (St.mk [] [] 0)
      = (Except.ok (pos_c9.evalWhite * negamax_factor pos_c9),
          St.mk [] [] 1) := by
  have h1 : sched_mono env_c9.sched := fun _ _ _ _ => rfl
  have h2 : probe_bounds (tt_get_key [] (cut_fen pos_c9)) 3 0 1
      = ProbeOut.cont 0 1 := rfl
  have h3 : env_c9.sched 0 = true := rfl
  exact ⟨h1, h2, h3,
    stopped_negamax_writes_nothing.1 env_c9 pos_c9 3 0 1 0 1
      (St.mk [] [] 0) h1 h2 h3⟩

/-! ### Claim C3: tablebase exceptions and the broken handler -/

/-- A two-king position (piece count 2 ≤ MAX_GAVIOTA_PIECES), not game
over, white to move. -/
def pos_c3 : Pos :=
  Pos.mk true false 0 "8/8/8/8/8/5k2/8/5K2 w - - 0 1"
    [(5, Piece.mk PieceType.king true), (21, Piece.mk PieceType.king false)]
    [] []

/-- An environment with end-game lookups enabled whose tablebase probe
raises (no Gaviota files / position outside coverage). -/
def env_c3 : Env :=
  Env.mk (fun _ => false) true
    (fun _ => Except.error PyErr.tableNotFound)
    (fun _ => Except.error PyErr.tableNotFound)

/-- C3: at the failing input — a tablebase-eligible position whose probe
raises — the `except` handler itself raises: it calls
`exception.with_traceback()` with zero arguments, which raises
`TypeError`, and that exception propagates out of `negamax` instead of
being logged.  (The second conjunct records that the tablebase probe did
raise.) -/
theorem tablebase_handler_raises :
    negamax env_c3 pos_c3 1 0 1 (St.mk [] [] 0)
      = (Except.error PyErr.typeError, St.mk [] [] 1) ∧
    env_c3.wdl pos_c3 = Except.error PyErr.tableNotFound := by
  constructor
  · rw [negamax.eq_def]
    norm_num [tt_get_key, assoc_find, probe_bounds, env_c3, pos_c3,
      Pos.gameOver, Pos.turn, Pos.pieceMap, Pos.evalWhite, negamax_factor,
      bump, stored_entry, eg_probe, end_game_lookup, with_traceback,
      MAX_GAVIOTA_PIECES]
  · rfl

end Klausfish
